import Mathlib

/-!
Shallow embedding of the `heapless` library (src/src/lib.rs): a circular
buffer with overwrite-on-full semantics and a bounded vector with
capacity-exceeded signalling, both over caller-provided backing storage.

Backing storage (`A : AsMut<[T]> + AsRef<[T]>`) is modelled as a `List T`
whose length is the capacity.  The Rust methods mutate `&mut self` and
return a value; they are embedded as state-passing functions returning the
result together with the new state.  Raw-pointer writes and the `%` on a
possibly-zero slice length are fallible: an out-of-range write or a
modulo-by-zero panic is modelled as `none`.
-/

namespace Heapless

/-- `CircularBuffer<T, A>` from the source: backing `array`, next-write
`index`, current `len`. -/
structure CircularBuffer (T : Type) where
  array : List T
  index : Nat
  len : Nat
deriving DecidableEq

/-- `CircularBuffer::new`: empty buffer over `array`, `index = 0`, `len = 0`. -/
def CircularBuffer.new (a : List T) : CircularBuffer T :=
  { array := a, index := 0, len := 0 }

/-- `CircularBuffer::capacity`: length of the backing storage. -/
def CircularBuffer.capacity (cb : CircularBuffer T) : Nat :=
  cb.array.length

/-- `CircularBuffer::push`: if `len < slice.len()` increment `len`; write
`elem` through a raw pointer at offset `index`; set
`index = (index + 1) % slice.len()`.  The write is only in range when
`index < slice.len()`, and the `%` panics when `slice.len() = 0`; both
failure modes are `none` (the guard `index < n` subsumes `n = 0`, since
then no index is in range). -/
def CircularBuffer.push (cb : CircularBuffer T) (elem : T) : Option (CircularBuffer T) :=
  let n := cb.array.length
  let len' := if cb.len < n then cb.len + 1 else cb.len
  if cb.index < n then
    some { array := cb.array.set cb.index elem
           index := (cb.index + 1) % n
           len := len' }
  else
    none

/-- `<CircularBuffer as Deref>::deref`: the whole slice when `len` equals
the storage length, otherwise `from_raw_parts(ptr, len)`, i.e. the first
`len` elements (valid in every reachable state, where `len ≤` storage
length). -/
def CircularBuffer.deref (cb : CircularBuffer T) : List T :=
  if cb.len = cb.array.length then cb.array else cb.array.take cb.len

/-- Sequence of pushes, propagating a push failure. -/
def CircularBuffer.pushAll (cb : CircularBuffer T) (es : List T) : Option (CircularBuffer T) :=
  match es with
  | [] => some cb
  | e :: rest =>
    match cb.push e with
    | some cb' => cb'.pushAll rest
    | none => none

/-- States reachable from construction by successful pushes. -/
inductive CBReachable : CircularBuffer T → Prop where
  | new (a : List T) : CBReachable (CircularBuffer.new a)
  | push (cb cb' : CircularBuffer T) (e : T) :
      CBReachable cb → cb.push e = some cb' → CBReachable cb'

/-- `Vec<T, A>` from the source: backing `array` and current `len`. -/
structure Vec (T : Type) where
  array : List T
  len : Nat
deriving DecidableEq

/-- `Vec::new`: empty vector over `array`. -/
def Vec.new (a : List T) : Vec T :=
  { array := a, len := 0 }

/-- `Vec::capacity`: length of the backing storage. -/
def Vec.capacity (v : Vec T) : Nat :=
  v.array.length

/-- `Vec::pop`: `None` when `len = 0`; otherwise decrement `len` and read
the element at the new `len` through a raw pointer (`getElem?` returns
exactly that element whenever `len ≤` storage length, as in every
reachable state). -/
def Vec.pop (v : Vec T) : Option T × Vec T :=
  if v.len = 0 then
    (none, v)
  else
    (v.array[v.len - 1]?, { v with len := v.len - 1 })

/-- `Vec::push`: `Err(())` when `len = slice.len()`; otherwise write `elem`
at offset `len` (in range, as `len < slice.len()` here) and return `Ok(())`.
The source does not increment `len` in the success branch. -/
def Vec.push (v : Vec T) (elem : T) : Except Unit Unit × Vec T :=
  if v.len = v.array.length then
    (Except.error (), v)
  else
    (Except.ok (), { v with array := v.array.set v.len elem })

/-- `<Vec as Deref>::deref`: `from_raw_parts(ptr, len)`, the first `len`
elements. -/
def Vec.deref (v : Vec T) : List T :=
  v.array.take v.len

/-! ### Helper lemmas -/

/-- Taking one past an updated position splits off the written element. -/
theorem take_set_succ (l : List T) (k : Nat) (e : T) (h : k < l.length) :
    (l.set k e).take (k + 1) = l.take k ++ [e] := by
  rw [List.set_eq_take_cons_drop e h, List.take_append_eq_append_take]
  have h1 : (List.take k l).length = k := by
    simp [List.length_take]
    omega
  rw [h1]
  simp

/-- Characterization of a successful circular-buffer push. -/
theorem cb_push_eq (cb : CircularBuffer T) (e : T) (hidx : cb.index < cb.array.length) :
    cb.push e = some
      { array := cb.array.set cb.index e
        index := (cb.index + 1) % cb.array.length
        len := if cb.len < cb.array.length then cb.len + 1 else cb.len } := by
  simp [CircularBuffer.push, hidx]

/-- A sequence of at most `capacity` pushes starting from a state that has
never wrapped (`index = len % capacity`) writes the elements consecutively
and never fails. -/
theorem cb_pushAll_eq (es : List T) : ∀ cb : CircularBuffer T,
    cb.index = cb.len % cb.array.length →
    cb.len + es.length ≤ cb.array.length →
    cb.pushAll es = some
      { array := cb.array.take cb.len ++ es ++ cb.array.drop (cb.len + es.length)
        index := (cb.len + es.length) % cb.array.length
        len := cb.len + es.length } := by
  induction es with
  | nil =>
    intro cb h1 h2
    simp only [CircularBuffer.pushAll, List.append_nil, List.length_nil, Nat.add_zero,
      List.take_append_drop]
    cases cb
    simp_all
  | cons e rest ih =>
    intro cb h1 h2
    have hlen : cb.len < cb.array.length := by
      simp only [List.length_cons] at h2
      omega
    have hidx : cb.index = cb.len := by
      rw [h1, Nat.mod_eq_of_lt hlen]
    have hpush : cb.push e = some
        { array := cb.array.set cb.len e
          index := (cb.len + 1) % cb.array.length
          len := cb.len + 1 } := by
      rw [cb_push_eq cb e (by omega)]
      simp [hidx, hlen]
    simp only [CircularBuffer.pushAll, hpush]
    have hrec := ih
      { array := cb.array.set cb.len e
        index := (cb.len + 1) % cb.array.length
        len := cb.len + 1 }
      (by simp [List.length_set])
      (by simp only [List.length_set]; simp only [List.length_cons] at h2; omega)
    rw [hrec]
    simp only [List.length_set, List.length_cons, Option.some.injEq, CircularBuffer.mk.injEq]
    have hD0 : cb.len + 1 + rest.length = cb.len + (rest.length + 1) := by omega
    refine ⟨?_, by rw [hD0], by rw [hD0]⟩
    rw [take_set_succ _ _ _ hlen, List.drop_set_of_lt _ _ (by omega)]
    rw [hD0]
    simp [List.append_assoc]

/-- Reachable circular-buffer states satisfy `len ≤ capacity`, and
`index < capacity` whenever the capacity is positive. -/
theorem cbReachable_inv (cb : CircularBuffer T) (h : CBReachable cb) :
    cb.len ≤ cb.array.length ∧ (0 < cb.array.length → cb.index < cb.array.length) := by
  induction h with
  | new a => simp [CircularBuffer.new]
  | push cb cb' e hr hp ih =>
    have hidx : cb.index < cb.array.length := by
      by_contra hx
      simp [CircularBuffer.push, hx] at hp
    rw [cb_push_eq cb e hidx] at hp
    injection hp with hp
    subst hp
    constructor
    · simp only [List.length_set]
      split <;> omega
    · intro hpos
      simp only [List.length_set] at hpos ⊢
      exact Nat.mod_lt _ (by omega)

/-! ### Claim theorems -/

/-- Claim C1: the claim states that a bounded-vector push below capacity
writes to slot `len`, increments `len`, and succeeds.  On a fresh vector of
capacity 1, push returns `Ok` and writes slot 0, but leaves `len` at 0, so
the read view still shows no element: the source omits the increment. -/
theorem vec_push_omits_len_increment :
    Vec.push (Vec.new ([0] : List Nat)) 5 = (Except.ok (), { array := [5], len := 0 }) ∧
    Vec.deref { array := [5], len := 0 } = ([] : List Nat) :=
  ⟨rfl, rfl⟩

/-- Claim C2: the claim states that pushing X and then popping returns X.
On a fresh vector of capacity 1, push 5 succeeds but does not increment
`len`, so the following pop finds `len = 0` and returns the empty result
instead of 5. -/
theorem vec_push_pop_roundtrip_fails :
    ((Vec.push (Vec.new ([0] : List Nat)) 5).2.pop).1 = none ∧
    ((Vec.push (Vec.new ([0] : List Nat)) 5).2.pop).2.len = 0 :=
  ⟨rfl, rfl⟩

/-- Claim C3: the claim states that a push into a zero-capacity circular
buffer performs no out-of-range write and no modulo-by-zero.  The source
writes unconditionally at the write index and reduces it modulo the storage
length, so with zero-length storage the write is out of range and the
modulus is zero (modelled as `none`). -/
theorem cb_zero_capacity_push_fails :
    CircularBuffer.push (CircularBuffer.new ([] : List Nat)) 7 = none :=
  rfl

/-- Claim C4: a circular-buffer push with capacity ≥ 1 (and the write index
in range, as in every reachable state) always succeeds, writes the element
at the current write index, increments `len` exactly when `len < capacity`,
and advances the write index modulo the capacity. -/
theorem cb_push_spec (cb : CircularBuffer T) (e : T) (_hc : 1 ≤ cb.capacity)
    (hidx : cb.index < cb.array.length) :
    cb.push e = some
      { array := cb.array.set cb.index e
        index := (cb.index + 1) % cb.array.length
        len := if cb.len < cb.array.length then cb.len + 1 else cb.len } :=
  cb_push_eq cb e hidx

/-- Witness for C4 at a concrete buffer of capacity 2. -/
theorem cb_push_spec_inst :
    CircularBuffer.push (⟨[0, 0], 1, 1⟩ : CircularBuffer Nat) 5 = some
      { array := ([0, 0] : List Nat).set 1 5
        index := (1 + 1) % ([0, 0] : List Nat).length
        len := if 1 < ([0, 0] : List Nat).length then 1 + 1 else 1 } :=
  cb_push_spec ⟨[0, 0], 1, 1⟩ 5 (by decide) (by decide)

/-- Claim C6: capacity-3 circular buffer, pushing 1, 2, 3, 4 ends with
storage slots (4, 2, 3) — slot 0 overwritten by 4 — length 3, write index
1, and a read view of length 3 exposing (4, 2, 3) in storage order. -/
theorem cb_wraparound_scenario :
    (CircularBuffer.new ([0, 0, 0] : List Nat)).pushAll [1, 2, 3, 4] =
      some ⟨[4, 2, 3], 1, 3⟩ ∧
    (CircularBuffer.deref (⟨[4, 2, 3], 1, 3⟩ : CircularBuffer Nat)).length = 3 ∧
    CircularBuffer.deref (⟨[4, 2, 3], 1, 3⟩ : CircularBuffer Nat) = [4, 2, 3] :=
  ⟨rfl, rfl, rfl⟩

/-- Claim C8: popping an empty bounded vector returns the empty result and
leaves the vector unchanged, and a repeated pop does the same. -/
theorem vec_pop_empty (v : Vec T) (h : v.len = 0) :
    v.pop = (none, v) ∧ (v.pop).2.pop = (none, v) := by
  have h1 : v.pop = (none, v) := by simp [Vec.pop, h]
  exact ⟨h1, by rw [h1]; exact h1⟩

/-- Witness for C8 on a fresh vector of capacity 1. -/
theorem vec_pop_empty_inst :
    (Vec.new ([1] : List Nat)).pop = (none, Vec.new [1]) ∧
    ((Vec.new ([1] : List Nat)).pop).2.pop = (none, Vec.new [1]) :=
  vec_pop_empty (Vec.new [1]) rfl

/-- Claim C10: on a bounded vector over zero-length storage, push always
fails with the capacity-exceeded error and leaves the vector unchanged, pop
always returns the empty result and leaves it unchanged, and the capacity
is 0; no storage slot is touched. -/
theorem vec_zero_capacity_total (v : Vec T) (e : T) (ha : v.array = []) (h0 : v.len = 0) :
    v.push e = (Except.error (), v) ∧ v.pop = (none, v) ∧ v.capacity = 0 := by
  refine ⟨?_, by simp [Vec.pop, h0], by simp [Vec.capacity, ha]⟩
  rw [Vec.push, if_pos (by simp [ha, h0])]

/-- Witness for C10 at the freshly constructed zero-capacity vector. -/
theorem vec_zero_capacity_total_inst :
    (Vec.new ([] : List Nat)).push 3 = (Except.error (), Vec.new []) ∧
    (Vec.new ([] : List Nat)).pop = (none, Vec.new []) ∧
    (Vec.new ([] : List Nat)).capacity = 0 :=
  vec_zero_capacity_total (Vec.new []) 3 rfl rfl

/-- Claim C5: in every reachable circular-buffer state the read view has
exactly `len` elements; while `len < capacity` it is storage slots
`[0, len)`, and when `len = capacity` it is the whole storage; moreover,
when the state was produced by at most `capacity` pushes from construction,
the view lists exactly the pushed elements, oldest first. -/
theorem cb_read_view (cb : CircularBuffer T) (h : CBReachable cb) :
    cb.deref.length = cb.len ∧
    (cb.len < cb.capacity → cb.deref = cb.array.take cb.len) ∧
    (cb.len = cb.capacity → cb.deref = cb.array) ∧
    (∀ a es : List T, es.length ≤ a.length →
      (CircularBuffer.new a).pushAll es = some cb → cb.deref = es) := by
  have hinv := (cbReachable_inv cb h).1
  refine ⟨?_, ?_, ?_, ?_⟩
  · rw [CircularBuffer.deref]
    split
    case isTrue hh => omega
    case isFalse hh =>
      simp only [List.length_take]
      omega
  · intro hlt
    simp only [CircularBuffer.capacity] at hlt
    rw [CircularBuffer.deref, if_neg (by omega)]
  · intro heq
    simp only [CircularBuffer.capacity] at heq
    rw [CircularBuffer.deref, if_pos heq]
  · intro a es hle hpush
    rw [cb_pushAll_eq es (CircularBuffer.new a) (by simp [CircularBuffer.new])
      (by simpa [CircularBuffer.new] using hle)] at hpush
    injection hpush with hpush
    rw [← hpush]
    rw [CircularBuffer.deref]
    simp only [CircularBuffer.new, List.take_zero, List.nil_append, Nat.zero_add]
    have hlen2 : (es ++ a.drop es.length).length = a.length := by
      simp only [List.length_append, List.length_drop]
      omega
    rcases Nat.lt_or_ge es.length a.length with hlt | hge
    · rw [if_neg (by rw [hlen2]; omega)]
      exact List.take_left es _
    · have hdrop : a.drop es.length = [] := by
        have : (a.drop es.length).length = 0 := by
          simp only [List.length_drop]
          omega
        exact List.eq_nil_of_length_eq_zero this
      rw [hdrop, List.append_nil]
      rw [if_pos rfl]

/-- Witness for C5: the buffer reached by pushing 7 into a fresh capacity-2
buffer has read view exactly (7). -/
theorem cb_read_view_inst :
    CircularBuffer.deref (⟨[7, 0], 1, 1⟩ : CircularBuffer Nat) = [7] :=
  (cb_read_view _ (CBReachable.push _ _ 7 (CBReachable.new [0, 0]) rfl)).2.2.2
    [0, 0] [7] (by decide) rfl

/-- Claim C7: pushing into a full circular buffer (with the write index in
range, as in every reachable state) succeeds, overwrites exactly the slot
at the pre-push write index, leaves every other slot unchanged, keeps the
capacity, and the read view length stays at the capacity. -/
theorem cb_push_full_frame (cb : CircularBuffer T) (e : T)
    (hfull : cb.len = cb.capacity) (hidx : cb.index < cb.array.length) :
    ∃ cb', cb.push e = some cb' ∧
      cb'.capacity = cb.capacity ∧
      cb'.array[cb.index]? = some e ∧
      (∀ j, j ≠ cb.index → cb'.array[j]? = cb.array[j]?) ∧
      cb'.deref.length = cb.capacity := by
  simp only [CircularBuffer.capacity] at hfull
  refine ⟨_, cb_push_eq cb e hidx, ?_, ?_, ?_, ?_⟩
  · simp [CircularBuffer.capacity, List.length_set]
  · exact List.getElem?_set_self hidx
  · intro j hj
    exact List.getElem?_set_ne (Ne.symm hj)
  · simp [CircularBuffer.deref, CircularBuffer.capacity, List.length_set, hfull]

/-- Witness for C7 on a full buffer of capacity 2 with write index 0. -/
theorem cb_push_full_frame_inst :
    ∃ cb', (⟨[1, 2], 0, 2⟩ : CircularBuffer Nat).push 9 = some cb' ∧
      cb'.capacity = (⟨[1, 2], 0, 2⟩ : CircularBuffer Nat).capacity ∧
      cb'.array[(0 : Nat)]? = some 9 ∧
      (∀ j, j ≠ (0 : Nat) → cb'.array[j]? = ([1, 2] : List Nat)[j]?) ∧
      cb'.deref.length = 2 :=
  cb_push_full_frame ⟨[1, 2], 0, 2⟩ 9 (by decide) (by decide)

/-- Claim C9: construction gives length 0 (and write index 0); a successful
circular-buffer push preserves `len ≤ capacity` and `index < capacity` and
keeps the capacity; a bounded-vector push or pop preserves
`len ≤ capacity` and keeps the capacity. -/
theorem heapless_invariants_preserved (cb cb' : CircularBuffer T) (v : Vec T) (e f : T)
    (hcl : cb.len ≤ cb.array.length)
    (hv : v.len ≤ v.array.length) (hp : cb.push e = some cb') :
    (∀ a : List T, (CircularBuffer.new a).len = 0 ∧ (CircularBuffer.new a).index = 0 ∧
      (CircularBuffer.new a).capacity = a.length ∧ (Vec.new a).len = 0 ∧
      (Vec.new a).capacity = a.length) ∧
    (cb'.len ≤ cb'.capacity ∧ cb'.index < cb'.capacity ∧ cb'.capacity = cb.capacity) ∧
    ((v.push f).2.len ≤ (v.push f).2.capacity ∧ (v.push f).2.capacity = v.capacity) ∧
    ((v.pop).2.len ≤ (v.pop).2.capacity ∧ (v.pop).2.capacity = v.capacity) := by
  have hidx : cb.index < cb.array.length := by
    by_contra hx
    simp [CircularBuffer.push, hx] at hp
  rw [cb_push_eq cb e hidx] at hp
  injection hp with hp
  rw [← hp]
  refine ⟨fun a => ⟨rfl, rfl, rfl, rfl, rfl⟩, ⟨?_, ?_, ?_⟩, ⟨?_, ?_⟩, ⟨?_, ?_⟩⟩
  · simp only [CircularBuffer.capacity, List.length_set]
    split <;> omega
  · simp only [CircularBuffer.capacity, List.length_set]
    exact Nat.mod_lt _ (by omega)
  · simp [CircularBuffer.capacity, List.length_set]
  · rw [Vec.push]
    split
    · exact hv
    · simpa [Vec.capacity, List.length_set] using hv
  · rw [Vec.push]
    split
    · rfl
    · simp [Vec.capacity, List.length_set]
  · rw [Vec.pop]
    split
    · exact hv
    · simp only [Vec.capacity]
      omega
  · rw [Vec.pop]
    split
    · rfl
    · rfl

/-- Witness for C9 at a concrete buffer and vector of capacity 1. -/
theorem heapless_invariants_preserved_inst :
    (⟨[1], 0, 1⟩ : CircularBuffer Nat).len ≤ (⟨[1], 0, 1⟩ : CircularBuffer Nat).capacity ∧
    (⟨[1], 0, 1⟩ : CircularBuffer Nat).index < (⟨[1], 0, 1⟩ : CircularBuffer Nat).capacity ∧
    (⟨[1], 0, 1⟩ : CircularBuffer Nat).capacity = (⟨[0], 0, 0⟩ : CircularBuffer Nat).capacity :=
  (heapless_invariants_preserved ⟨[0], 0, 0⟩ ⟨[1], 0, 1⟩ ⟨[0], 0⟩ 1 2
    (by decide) (by decide) (by decide)).2.1

end Heapless
